import Mathlib

/-!
Verification development for the CCRIPTER voice chat client.

The definitions below are a shallow embedding of the interaction core of
the chat view (the `Chat` component): the serialized audio playback queue
(`stopAllAudio`, `tryPlayNext`, `enqueueAndPlay`, `playAudioUrl`), the
streamed chat read loop of `onSendText`, the MediaRecorder capture flow
(`onToggleRecord`, `cancelRecording`, `confirmRecording`, `mr.onstop`),
the shared `streamAbortRef` discipline, and the request construction.

Asynchronous browser callbacks (audio element `ended`/`error` listeners,
MediaRecorder `onstop`/`ondataavailable`, stream chunk arrival, the
rejection continuation of an aborted read) are modelled as explicit events
interleaved with the user-initiated operations; a trace is a list of such
events, and the executable `step` functions mirror the handlers in the
source line by line.
-/

namespace CC

/-- Character-list test: does `s` start with `p`?  Models the
`String.prototype.startsWith` calls in the source. -/
def listStarts : List Char → List Char → Bool
  | _, [] => true
  | [], _ :: _ => false
  | c :: cs, p :: ps => c == p && listStarts cs ps

/-- String wrapper for `listStarts`. -/
def strStarts (s p : String) : Bool := listStarts s.data p.data

namespace Audio

/-- One entry of `audioQueueRef`: the object literal
`\x7b url, revokeAfter, msgId \x7d` pushed by `enqueueAndPlay`.  `iid`
stamps the JavaScript object identity of each pushed literal. -/
structure Item where
  iid : Nat
  url : String
  revokeAfter : Bool
  msgId : Option String
deriving DecidableEq

/-- One `new Audio(next.url)` element created by `tryPlayNext`, with the
`onEnded` listener state: `fired` means its end/error handler already ran
(the handler removes its own listeners first, so it runs at most once),
`paused` means `stopAllAudio` paused this element. -/
structure Elem where
  gen : Nat
  item : Item
  fired : Bool
  paused : Bool
deriving DecidableEq

/-- The playback-related refs of the `Chat` component.  `released` is the
ordered log of `URL.revokeObjectURL` calls. -/
structure AState where
  audioRef : Option Nat
  isPlayingRef : Bool
  currentItem : Option Item
  queue : List Item
  playingMsgId : Option String
  elems : List Elem
  released : List String
  nextGen : Nat
  nextIid : Nat
deriving DecidableEq

def init : AState :=
  { audioRef := none, isPlayingRef := false, currentItem := none
  , queue := [], playingMsgId := none, elems := [], released := []
  , nextGen := 0, nextIid := 0 }

/-- `tryPlayNext`: return if something is playing; shift the queue; start
a fresh audio element on the shifted item and mark it current. -/
def tryPlayNext (s : AState) : AState :=
  if s.isPlayingRef then s else
  match s.queue with
  | [] => s
  | next :: rest =>
    { s with isPlayingRef := true
           , queue := rest
           , audioRef := some s.nextGen
           , currentItem := some next
           , playingMsgId := next.msgId
           , elems := s.elems ++ [⟨s.nextGen, next, false, false⟩]
           , nextGen := s.nextGen + 1 }

def pauseGen (es : List Elem) (g : Nat) : List Elem :=
  es.map (fun e => if e.gen == g then { e with paused := true } else e)

def fireGen (es : List Elem) (g : Nat) : List Elem :=
  es.map (fun e => if e.gen == g then { e with fired := true } else e)

def findGen (es : List Elem) (g : Nat) : Option Elem :=
  es.find? (fun e => e.gen == g)

/-- `stopAllAudio`: pause the current element and revoke its URL when the
current item is one-shot and the element src is a blob URL; null the refs;
revoke every queued one-shot blob URL; empty the queue.  The end/error
listeners of the paused element are NOT removed. -/
def stopAllAudio (s : AState) : AState :=
  let s1 :=
    match s.audioRef with
    | none => s
    | some g =>
      let sp := { s with elems := pauseGen s.elems g }
      match findGen s.elems g, s.currentItem with
      | some e, some cur =>
        if cur.revokeAfter && strStarts e.item.url "blob:" then
          { sp with released := sp.released ++ [e.item.url] }
        else sp
      | _, _ => sp
  let s2 := { s1 with audioRef := none, isPlayingRef := false
                    , currentItem := none, playingMsgId := none }
  let s3 := { s2 with released := s2.released ++
                (s2.queue.filter
                  (fun (it : Item) => it.revokeAfter && strStarts it.url "blob:")).map Item.url }
  { s3 with queue := [] }

/-- `enqueueAndPlay(url, revokeAfter, msgId)`: push a fresh item literal
and call `tryPlayNext`. -/
def enqueueAndPlay (url : String) (revokeAfter : Bool) (msgId : Option String)
    (s : AState) : AState :=
  tryPlayNext { s with queue := s.queue ++ [⟨s.nextIid, url, revokeAfter, msgId⟩]
                     , nextIid := s.nextIid + 1 }

/-- `playAudioUrl(url, msgId)`: literally `stopAllAudio()` then
`enqueueAndPlay(url, false, msgId)`. -/
def playAudioUrl (url : String) (msgId : Option String) (s : AState) : AState :=
  enqueueAndPlay url false msgId (stopAllAudio s)

/-- The `onEnded` closure of element `g` runs (its `ended` listener, its
`error` listener, or the `audio.play()` rejection handler): remove the
listeners, revoke the captured item URL when one-shot, null the playing
refs, and call `tryPlayNext`.  It fires at most once per element and its
guard does not check that the element is still current. -/
def fireCallback (g : Nat) (s : AState) : AState :=
  match findGen s.elems g with
  | none => s
  | some e =>
    if e.fired then s else
    let s1 := { s with elems := fireGen s.elems g }
    let s2 := if e.item.revokeAfter
              then { s1 with released := s1.released ++ [e.item.url] }
              else s1
    tryPlayNext { s2 with isPlayingRef := false, currentItem := none
                        , playingMsgId := none }

/-- Events of the playback subsystem: the three queue operations plus the
asynchronous end/error callback of a given audio element. -/
inductive AEvent where
  | enq (url : String) (revokeAfter : Bool) (msgId : Option String)
  | stop
  | playUrl (url : String) (msgId : Option String)
  | cb (g : Nat)
deriving DecidableEq

def step (s : AState) (e : AEvent) : AState :=
  match e with
  | .enq u r m => enqueueAndPlay u r m s
  | .stop => stopAllAudio s
  | .playUrl u m => playAudioUrl u m s
  | .cb g => fireCallback g s

def runFrom (s : AState) (tr : List AEvent) : AState := tr.foldl step s

def run (tr : List AEvent) : AState := runFrom init tr

/-- A callback event is timely when it fires on the element currently
held by `audioRef` while it is playing; anything else is a late callback
(for example the `error` event of an element whose blob URL was revoked by
`stopAllAudio`, or an `ended` event queued just before a manual stop). -/
def cbOk (s : AState) : AEvent → Bool
  | .cb g => (s.audioRef == some g) && s.isPlayingRef
  | _ => true

def goodFrom (s : AState) : List AEvent → Bool
  | [] => true
  | e :: tl => cbOk s e && goodFrom (step s e) tl

/-- A trace with no late end/error callbacks. -/
def goodTrace (tr : List AEvent) : Bool := goodFrom init tr

/-- An element is audibly playing: started, not ended/errored, not paused. -/
def playing (e : Elem) : Bool := !e.fired && !e.paused

def playingElems (s : AState) : List Elem := s.elems.filter playing

/-- How many times `URL.revokeObjectURL` was invoked on `u`. -/
def releasedCount (s : AState) (u : String) : Nat :=
  (s.released.filter (fun v => v == u)).length

end Audio

namespace Stream

/-- Parse result of one `JSON.parse(line.slice(6))` call followed by the
`evt.type` dispatch: a delta event carrying its text, or the end event. -/
inductive SEvent where
  | delta (text : String)
  | endEv
deriving DecidableEq

def jsonWs (c : Char) : Bool := c == ' ' || c == '\t' || c == '\n' || c == '\r'

def skipWs (cs : List Char) : List Char := cs.dropWhile jsonWs

def escChar (c : Char) : Option Char :=
  if c == '\"' then some '\"'
  else if c == '\\' then some '\\'
  else if c == '/' then some '/'
  else if c == 'n' then some '\n'
  else if c == 't' then some '\t'
  else if c == 'r' then some '\r'
  else if c == 'b' then some (Char.ofNat 8)
  else if c == 'f' then some (Char.ofNat 12)
  else none

/-- Body of a JSON string literal after the opening quote: returns the
decoded characters and the remainder after the closing quote. -/
def strBody : List Char → Option (List Char × List Char)
  | [] => none
  | '\"' :: rest => some ([], rest)
  | '\\' :: c :: rest =>
    match escChar c, strBody rest with
    | some e, some (s, r) => some (e :: s, r)
    | _, _ => none
  | c :: rest =>
    match strBody rest with
    | some (s, r) => some (c :: s, r)
    | none => none

def parseString (cs : List Char) : Option (List Char × List Char) :=
  match cs with
  | '\"' :: rest => strBody rest
  | _ => none

def expectChar (c : Char) (cs : List Char) : Option (List Char) :=
  match cs with
  | x :: rest => if x == c then some rest else none
  | [] => none

/-- Models `JSON.parse` on the streaming contract's event grammar (§6 of
the collaborator contract: `\x7btype: "delta", text: string\x7d` or
`\x7btype: "end"\x7d`, whitespace-tolerant, standard one-character string
escapes), followed by the `evt.type`/`evt.text` field reads of the read
loop.  Anything outside this grammar parses to `none`, which the read
loop treats exactly like a `JSON.parse` exception: the line is skipped. -/
def parseEvent (cs0 : List Char) : Option SEvent := do
  let cs ← expectChar '\x7b' (skipWs cs0)
  let (k1, cs) ← parseString (skipWs cs)
  if k1 = "type".data then do
    let cs ← expectChar ':' (skipWs cs)
    let (ty, cs) ← parseString (skipWs cs)
    if ty = "end".data then do
      let cs ← expectChar '\x7d' (skipWs cs)
      if (skipWs cs).isEmpty then some SEvent.endEv else none
    else if ty = "delta".data then do
      let cs ← expectChar ',' (skipWs cs)
      let (k2, cs) ← parseString (skipWs cs)
      if k2 = "text".data then do
        let cs ← expectChar ':' (skipWs cs)
        let (t, cs) ← parseString (skipWs cs)
        let cs ← expectChar '\x7d' (skipWs cs)
        if (skipWs cs).isEmpty then some (SEvent.delta (String.mk t)) else none
      else none
    else none
  else none

def dataMarker : List Char := "data: ".data

/-- The per-line dispatch of the read loop: a line contributes a delta
text exactly when it starts with `data: `, the remainder parses, and the
event is a delta.  (A delta whose text is empty is also returned; the
caller then skips the append, mirroring the `evt.text` truthiness test.) -/
def lineDelta (line : List Char) : Option String :=
  if listStarts line dataMarker then
    match parseEvent (line.drop 6) with
    | some (SEvent.delta t) => some t
    | _ => none
  else none

/-- One iteration of `for (const line of lines)`: append the delta text to
the accumulator; `end` events and unparseable lines change nothing. -/
def applyLine (acc : String) (line : List Char) : String :=
  match lineDelta line with
  | some t => if t = "" then acc else acc ++ t
  | none => acc

/-- `chunk.split('\n')` on character lists, with JavaScript semantics
(`"" ↦ [""]`, separators kept as empty segments). -/
def splitNl : List Char → List (List Char)
  | [] => [[]]
  | c :: cs =>
    if c == '\n' then [] :: splitNl cs
    else
      match splitNl cs with
      | [] => [[c]]
      | h :: t => (c :: h) :: t

def processLines (acc : String) (lines : List (List Char)) : String :=
  lines.foldl applyLine acc

def processChunk (acc : String) (chunk : String) : String :=
  processLines acc (splitNl chunk.data)

/-- The whole `while (true) ... reader.read()` loop over the chunks the
connection delivers, threading `assistantText`. -/
def runChunks (acc : String) (chunks : List String) : String :=
  chunks.foldl processChunk acc

def allLines : List String → List (List Char)
  | [] => []
  | c :: cs => splitNl c.data ++ allLines cs

def deltaTexts (lines : List (List Char)) : List String :=
  lines.filterMap lineDelta

def concatAll : List String → String
  | [] => ""
  | s :: rest => s ++ concatAll rest

/-- Observable outcome of one `onSendText` streaming session: the final
accumulated assistant text, and whether the loop ran to `done` (the
normal-completion path) rather than being torn down by an abort. -/
structure Outcome where
  text : String
  completed : Bool
deriving DecidableEq

/-- The read loop with an optional abort point.  `abort()` is observable
at the next `await reader.read()` (the inner for-loop is synchronous), so
aborting before the `(k+1)`-th read discards every chunk from index `k`
on and diverts to the catch path: no completion, text kept as-is. -/
def streamRead (chunks : List String) (abortAt : Option Nat) : Outcome :=
  match abortAt with
  | none => { text := runChunks "" chunks, completed := true }
  | some k => { text := runChunks "" (chunks.take k), completed := false }

end Stream

namespace Recorder

inductive RAction where
  | send
  | cancel
deriving DecidableEq

/-- One MediaRecorder together with its `getUserMedia` stream: whether
`mr.stop()` was called, whether `onstop` already fired, and whether the
stream tracks were stopped. -/
structure RSession where
  sid : Nat
  stopRequested : Bool
  stopFired : Bool
  tracksReleased : Bool
deriving DecidableEq

/-- The recording refs of the `Chat` component.  `actionRef` and
`chunksRef` mirror `recordActionRef` and `chunksRef`: both are shared
across recorder instances.  `deliveries` logs each `onSendVoice(blob)`
invocation as the chunk list the blob was assembled from. -/
structure RState where
  recording : Bool
  actionRef : RAction
  chunksRef : List String
  mrRef : Option Nat
  sessions : List RSession
  deliveries : List (List String)
  nextSid : Nat
deriving DecidableEq

def init : RState :=
  { recording := false, actionRef := .send, chunksRef := [], mrRef := none
  , sessions := [], deliveries := [], nextSid := 0 }

def findSession (ss : List RSession) (n : Nat) : Option RSession :=
  ss.find? (fun e => e.sid == n)

def markStopRequested (ss : List RSession) (n : Nat) : List RSession :=
  ss.map (fun e => if e.sid == n then { e with stopRequested := true } else e)

def markStopFired (ss : List RSession) (n : Nat) : List RSession :=
  ss.map (fun e => if e.sid == n
                   then { e with stopFired := true, tracksReleased := true }
                   else e)

/-- Common body of `cancelRecording`/`confirmRecording`: set
`recordActionRef`, call `mediaRecorderRef.current.stop()` when the
recorder is not inactive, and leave recording mode. -/
def finishRec (s : RState) (a : RAction) : RState :=
  let s1 := { s with actionRef := a }
  let s2 :=
    match s1.mrRef with
    | some m =>
      match findSession s1.sessions m with
      | some e =>
        if e.stopRequested then s1
        else { s1 with sessions := markStopRequested s1.sessions m }
      | none => s1
    | none => s1
  { s2 with recording := false }

inductive REvent where
  | startRec
  | dataAvail (sid : Nat) (data : String)
  | cancelRec
  | confirmRec
  | stopCb (sid : Nat)
deriving DecidableEq

/-- `startRec` is the success path of `onToggleRecord` (early-return when
already recording; fresh recorder; `chunksRef = []`; action reset to
send).  `dataAvail` is `mr.ondataavailable` (pushes non-empty data into
the shared `chunksRef`; a recorder emits no events after its `onstop`).
`stopCb` is `mr.onstop`: blob := the shared chunks, action := the shared
`recordActionRef`, clear chunks, deliver via `onSendVoice` when the action
is send, then stop the stream tracks. -/
def stepR (s : RState) : REvent → RState
  | .startRec =>
    if s.recording then s else
    { s with mrRef := some s.nextSid
           , chunksRef := []
           , sessions := s.sessions ++ [⟨s.nextSid, false, false, false⟩]
           , actionRef := .send
           , recording := true
           , nextSid := s.nextSid + 1 }
  | .dataAvail sid d =>
    match findSession s.sessions sid with
    | some e =>
      if e.stopFired then s
      else if d = "" then s
      else { s with chunksRef := s.chunksRef ++ [d] }
    | none => s
  | .cancelRec => finishRec s .cancel
  | .confirmRec => finishRec s .send
  | .stopCb sid =>
    match findSession s.sessions sid with
    | some e =>
      if e.stopRequested && !e.stopFired then
        let blob := s.chunksRef
        let base := { s with chunksRef := []
                           , sessions := markStopFired s.sessions sid }
        match s.actionRef with
        | .send => { base with deliveries := base.deliveries ++ [blob] }
        | .cancel => base
      else s
    | none => s

def runR (tr : List REvent) : RState := tr.foldl stepR init

/-- One serialized recording session: its captured data events in capture
order and how it ended (`keep = true` is confirm, `false` is cancel). -/
structure SessScript where
  datas : List String
  keep : Bool
deriving DecidableEq

/-- Run one session to completion: start, all data events, the ending
button, then the recorder's stop callback. -/
def runScript (s : RState) (sc : SessScript) : RState :=
  let n := s.nextSid
  let s1 := stepR s .startRec
  let s2 := sc.datas.foldl (fun st d => stepR st (.dataAvail n d)) s1
  let s3 := stepR s2 (if sc.keep then .confirmRec else .cancelRec)
  stepR s3 (.stopCb n)

def runScripts : RState → List SessScript → RState
  | s, [] => s
  | s, sc :: rest => runScripts (runScript s sc) rest

end Recorder

namespace Coord

/-- One `onSendText` invocation together with its AbortController and the
assistant message it populates. -/
structure CSession where
  sid : Nat
  aborted : Bool
  cleaned : Bool
  text : String
deriving DecidableEq

/-- `streamAbortRef` plus all sessions ever started. -/
structure CState where
  ref : Option Nat
  sessions : List CSession
  nextSid : Nat
deriving DecidableEq

def init : CState := { ref := none, sessions := [], nextSid := 0 }

def markAborted (ss : List CSession) (n : Nat) : List CSession :=
  ss.map (fun e => if e.sid == n then { e with aborted := true } else e)

def markCleaned (ss : List CSession) (n : Nat) : List CSession :=
  ss.map (fun e => if e.sid == n then { e with cleaned := true } else e)

def appendText (ss : List CSession) (n : Nat) (t : String) : List CSession :=
  ss.map (fun e => if e.sid == n then { e with text := e.text ++ t } else e)

def findC (ss : List CSession) (n : Nat) : Option CSession :=
  ss.find? (fun e => e.sid == n)

/-- `stopStreaming`: abort the controller held in `streamAbortRef` (if
any) and null the ref. -/
def stopStreaming (s : CState) : CState :=
  match s.ref with
  | none => s
  | some g => { s with sessions := markAborted s.sessions g, ref := none }

/-- The synchronous stream bookkeeping of a non-empty `onSendText`:
`stopStreaming()`, then a fresh controller is stored in the ref and the
fetch is issued. -/
def sendText (s : CState) : CState :=
  let s1 := stopStreaming s
  { s1 with ref := some s1.nextSid
          , sessions := s1.sessions ++ [⟨s1.nextSid, false, false, ""⟩]
          , nextSid := s1.nextSid + 1 }

/-- `onInputChange` calls `stopAllAudio()` and `stopStreaming()`; only the
stream part is visible to this model. -/
def inputChange (s : CState) : CState := stopStreaming s

/-- The stream bookkeeping of `onToggleRecord` before `getUserMedia`. -/
def beginRecord (s : CState) : CState := stopStreaming s

/-- The catch/finally continuation of session `sid` after its pending
`reader.read()` rejected because the session was aborted: the finally
block runs `streamAbortRef.current = null` UNCONDITIONALLY, even when the
ref holds a newer session's controller. -/
def cleanup (s : CState) (sid : Nat) : CState :=
  match findC s.sessions sid with
  | some e =>
    if e.aborted && !e.cleaned
    then { s with ref := none, sessions := markCleaned s.sessions sid }
    else s
  | none => s

/-- A delta chunk arrives on session `sid`'s connection; the read loop
applies it to the session's assistant message unless the session was
aborted (an aborted read loop never resumes). -/
def deltaArrive (s : CState) (sid : Nat) (t : String) : CState :=
  match findC s.sessions sid with
  | some e =>
    if e.aborted then s else { s with sessions := appendText s.sessions sid t }
  | none => s

inductive CEvent where
  | send
  | input
  | record
  | clean (sid : Nat)
  | delta (sid : Nat) (t : String)
deriving DecidableEq

def stepC (s : CState) : CEvent → CState
  | .send => sendText s
  | .input => inputChange s
  | .record => beginRecord s
  | .clean g => cleanup s g
  | .delta g t => deltaArrive s g t

def runC (tr : List CEvent) : CState := tr.foldl stepC init

end Coord

namespace Api

structure Msg where
  role : Bool
  text : String
deriving DecidableEq

/-- The body `onSendText` posts to the `/chat/stream` endpoint:
`JSON.stringify(\x7b user_id: 'demo', query \x7d)`. -/
structure ChatStreamBody where
  user_id : String
  query : String
deriving DecidableEq

/-- The request builder.  The component has the whole message history in
scope when it builds the body, but the body uses only the query. -/
def buildChatRequest (_history : List Msg) (q : String) : ChatStreamBody :=
  ChatStreamBody.mk "demo" q

/-- The key set of the serialized request body. -/
def chatStreamFields : List String := ["user_id", "query"]

/-- `endpoints.chatStream()`. -/
def chatStreamUrl (base : String) : String := base ++ "/chat/stream"

/-- Modelled from the spec: the collaborator-contract request shape of §6
(`\x7b conversationId, query, contextWindow: last N prior messages \x7d`
with N = 10).  No client code in the repository builds this shape; it is
defined only to compare against `buildChatRequest`. -/
structure SpecChatRequest where
  conversationId : String
  query : String
  contextWindow : List Msg
deriving DecidableEq

def lastN (n : Nat) (l : List Msg) : List Msg := l.drop (l.length - n)

/-- Modelled from the spec: the request the spec says is sent. -/
def specChatRequest (history : List Msg) (cid q : String) : SpecChatRequest :=
  SpecChatRequest.mk cid q (lastN 10 history)

end Api

namespace Ui

structure UMessage where
  mid : Nat
  isUser : Bool
  text : String
deriving DecidableEq

/-- The component state touched by `onSendText` before its first await:
the controlled input, the message list, the loading flag, the audio refs
and the stream ref. -/
structure UiState where
  input : String
  messages : List UMessage
  loading : Bool
  audio : Audio.AState
  stream : Coord.CState
  nextMid : Nat
deriving DecidableEq

/-- The whitespace class of `String.prototype.trim` (core subset). -/
def jsWhitespaceChar (c : Char) : Bool :=
  c == ' ' || c == '\t' || c == '\n' || c == '\r' || c == '\x0b' || c == '\x0c'

/-- `input.trim()`. -/
def jsTrim (s : String) : String :=
  String.mk (((s.data.dropWhile jsWhitespaceChar).reverse.dropWhile
      jsWhitespaceChar).reverse)

/-- The synchronous effect of `onSendText` up to its first await: trim
the input and return unchanged when the trimmed query is empty (the
`if (!query) return` guard comes before every other statement); otherwise
clear the input, append the user message and the empty assistant message,
set loading, stop all audio, abort any active stream and open a new one. -/
def onSendTextModel (s : UiState) : UiState :=
  let query := jsTrim s.input
  if query = "" then s
  else
    { s with input := ""
           , messages := s.messages ++
               [UMessage.mk s.nextMid true query,
                UMessage.mk (s.nextMid + 1) false ""]
           , nextMid := s.nextMid + 2
           , loading := true
           , audio := Audio.stopAllAudio s.audio
           , stream := Coord.sendText s.stream }

end Ui

namespace Audio

/-- State invariant maintained by every operation and callback, late or
not: `isPlayingRef` agrees with `currentItemRef` being set, queue items
carry identities below the stamp counter, queued identities are distinct,
and the current item's identity is fresh and never queued. -/
def InvAll (s : AState) : Prop :=
  s.isPlayingRef = s.currentItem.isSome
  ∧ (∀ it ∈ s.queue, it.iid < s.nextIid)
  ∧ (s.queue.map Item.iid).Nodup
  ∧ (∀ cur, s.currentItem = some cur →
      cur.iid < s.nextIid ∧ ∀ it ∈ s.queue, it.iid ≠ cur.iid)

/-- State invariant maintained along traces without late callbacks: every
element generation is below the counter and distinct, and any audibly
playing element is exactly the one held by `audioRef` while
`isPlayingRef` is set. -/
def InvGood (s : AState) : Prop :=
  (∀ e ∈ s.elems, e.gen < s.nextGen)
  ∧ (s.elems.map Elem.gen).Nodup
  ∧ (∀ e ∈ s.elems, playing e = true →
      s.audioRef = some e.gen ∧ s.isPlayingRef = true)

end Audio

namespace Recorder

/-- Between serialized sessions: not recording, and every recorder so far
has been stopped, has fired its stop callback and has released its
tracks. -/
def RInv (s : RState) : Prop :=
  s.recording = false
  ∧ (∀ e ∈ s.sessions, e.sid < s.nextSid ∧ e.stopRequested = true
      ∧ e.stopFired = true ∧ e.tracksReleased = true)

end Recorder

end CC

-- sanity examples (definitions behave like the source on small inputs)
example : (CC.Audio.run [CC.Audio.AEvent.enq "a" false none]).isPlayingRef = true := by decide

example : (CC.Audio.run [CC.Audio.AEvent.enq "blob:a" true none,
    CC.Audio.AEvent.stop]).released = ["blob:a"] := by decide

example : (CC.Audio.run [CC.Audio.AEvent.enq "blob:a" true none,
    CC.Audio.AEvent.stop, CC.Audio.AEvent.cb 0]).released = ["blob:a", "blob:a"] := by decide

namespace CC

theorem strData_append (a b : String) : (a ++ b).data = a.data ++ b.data := by
  cases a; cases b; rfl

theorem strAppend_empty (s : String) : s ++ "" = s := by
  cases s with
  | mk d => exact congrArg String.mk (List.append_nil d)

theorem strEmpty_append (s : String) : "" ++ s = s := by
  cases s with
  | mk d => rfl

theorem strAppend_assoc (a b c : String) : a ++ b ++ c = a ++ (b ++ c) := by
  cases a; cases b; cases c
  exact congrArg String.mk (List.append_assoc _ _ _)

/-- C1: the claim says every transient (revokeAfter) item's object URL is
released exactly once, whichever way the item ends.  The code violates
this: `stopAllAudio` revokes the current transient blob URL but does not
detach the stopped element's end/error listeners, so when that element's
callback later fires (for example the `error` event caused by revoking
its src, or an `ended` event queued just before the stop, or the
rejection of its pending `play()` promise), `onEnded` revokes the same
URL a second time.  Evaluating the model on this trace shows two
`URL.revokeObjectURL` calls for one transient item. -/
theorem c1_transient_double_release :
    Audio.releasedCount
      (Audio.run [Audio.AEvent.enq "blob:a" true none, Audio.AEvent.stop,
        Audio.AEvent.cb 0]) "blob:a" = 2 := by decide

/-- C3: the claim says an already-scheduled end/error callback of an item
stopped by `stopAllAudio` has no further effect.  In the code the late
callback runs in full: it revokes the stopped item's URL again, clears
the current item (here the item `y` that had started playing after the
stop), and promotes and starts the item `z` that was enqueued after the
stop, leaving two elements audibly playing. -/
theorem c3_late_callback_has_effects :
    (Audio.run [Audio.AEvent.enq "blob:x" true none, Audio.AEvent.stop,
        Audio.AEvent.enq "y" false none, Audio.AEvent.enq "z" false none,
        Audio.AEvent.cb 0]).released = ["blob:x", "blob:x"]
    ∧ (Audio.run [Audio.AEvent.enq "blob:x" true none, Audio.AEvent.stop,
        Audio.AEvent.enq "y" false none, Audio.AEvent.enq "z" false none,
        Audio.AEvent.cb 0]).currentItem = some (Audio.Item.mk 2 "z" false none)
    ∧ (Audio.playingElems (Audio.run [Audio.AEvent.enq "blob:x" true none,
        Audio.AEvent.stop, Audio.AEvent.enq "y" false none,
        Audio.AEvent.enq "z" false none, Audio.AEvent.cb 0])).length = 2 := by
  refine ⟨by decide, by decide, by decide⟩

/-- C2 counterexample: with a late end/error callback (allowed because
`stopAllAudio` leaves the stopped element's listeners attached), two
items end up audibly playing at once — the claim's "at most one item is
in the playing state at any instant" fails on the code.  Trace: play `a`;
stop; `b` starts playing; `c` queued; the stopped element's late callback
clears the playing flag and promotes `c` while `b` is still playing. -/
theorem c2_two_items_playing :
    (Audio.playingElems (Audio.run [Audio.AEvent.enq "a" false none,
        Audio.AEvent.stop, Audio.AEvent.enq "b" false none,
        Audio.AEvent.enq "c" false none, Audio.AEvent.cb 0])).length = 2 := by
  decide

/-- C9: `playAudioUrl(url, msgId)` is observationally equivalent to
`stopAllAudio()` followed by enqueueing the URL as a non-transient item —
in the code it is literally that composition, so the two formulations
yield identical states (playing refs, queue, release log and all). -/
theorem c9_playAudioUrl_refines (s : Audio.AState) (url : String)
    (msgId : Option String) :
    Audio.playAudioUrl url msgId s
      = Audio.enqueueAndPlay url false msgId (Audio.stopAllAudio s) := rfl

/-- C7: the claim says every user action (send text, begin recording,
edit input) aborts the active stream so that no further delta lands, and
at most one stream stays active.  The code violates this.  Trace: send A;
send B (this aborts A and stores B's controller in `streamAbortRef`);
A's pending read rejects and its `finally` runs `streamAbortRef.current =
null` unconditionally, discarding B's controller; the user edits the
input (`stopStreaming` now finds a null ref and aborts nothing); a delta
for B arrives and is applied to B's message.  Session 1 is still
unaborted with text "x" applied after the edit, and the abort ref is
gone. -/
theorem c7_lost_abort_handle :
    Coord.findC (Coord.runC [Coord.CEvent.send, Coord.CEvent.send,
        Coord.CEvent.clean 0, Coord.CEvent.input,
        Coord.CEvent.delta 1 "x"]).sessions 1
      = some (Coord.CSession.mk 1 false false "x")
    ∧ (Coord.runC [Coord.CEvent.send, Coord.CEvent.send,
        Coord.CEvent.clean 0, Coord.CEvent.input,
        Coord.CEvent.delta 1 "x"]).ref = none := by
  refine ⟨by decide, by decide⟩

/-- C8 counterexample: the outgoing `/chat/stream` body is identical for
an empty history and a non-empty history (it carries no context window at
all — its only keys are `user_id` and `query`), whereas the shape the
claim describes necessarily differs between the two histories. -/
theorem c8_no_context_window :
    Api.buildChatRequest [Api.Msg.mk true "hi"] "q" = Api.buildChatRequest [] "q"
    ∧ Api.specChatRequest [Api.Msg.mk true "hi"] "demo" "q"
        ≠ Api.specChatRequest [] "demo" "q"
    ∧ ¬ ("contextWindow" ∈ Api.chatStreamFields)
    ∧ ¬ ("conversationId" ∈ Api.chatStreamFields) := by
  refine ⟨rfl, by decide, by decide, by decide⟩

/-- C8 (amended): every outgoing streaming chat request carries exactly
the fixed user identifier "demo" and the query, independently of the
message history; the last-10-messages context is not part of the client
request (per the repository README it is assembled by the backend). -/
theorem c8_request_shape (history : List Api.Msg) (q : String) :
    Api.buildChatRequest history q = Api.ChatStreamBody.mk "demo" q
    ∧ Api.buildChatRequest history q = Api.buildChatRequest [] q := ⟨rfl, rfl⟩

/-- C4 counterexample: the claim says receiving the end event completes
the session.  In the code the `end` branch is empty — the read loop keeps
consuming, so a delta arriving after an `end` event is still applied: the
accumulated text is "x", not the empty string a completed-on-end session
would have kept. -/
theorem c4_delta_after_end_applied :
    (Stream.streamRead
      ["data: \x7b\"type\": \"end\"\x7d\ndata: \x7b\"type\": \"delta\", \"text\": \"x\"\x7d"]
      none).text = "x"
    ∧ ("x" : String) ≠ "" := by
  refine ⟨by decide, by decide⟩

/-- C6 counterexample: the claim says a session ended via cancel never
invokes the delivery path.  `recordActionRef` and `chunksRef` are shared
across recorder instances, so if a new recording starts before the
cancelled recorder's `onstop` fires (the cancel button already reset
`recording`, so the mic button is live again), the restart resets the
shared action to send and the late `onstop` of the CANCELLED session
delivers a blob (here the freshly cleared chunk list). -/
theorem c6_cancelled_session_delivers :
    (Recorder.runR [Recorder.REvent.startRec, Recorder.REvent.dataAvail 0 "x",
        Recorder.REvent.cancelRec, Recorder.REvent.startRec,
        Recorder.REvent.stopCb 0]).deliveries = [[]] := by decide

end CC

namespace CC
namespace Audio

theorem invAll_init : InvAll init := by
  refine ⟨rfl, ?_, ?_, ?_⟩
  · intro it h; simp [init] at h
  · simp [init]
  · intro cur h; simp [init] at h

theorem invAll_tryPlayNext {s : AState} (h : InvAll s) : InvAll (tryPlayNext s) := by
  obtain ⟨h1, h2, h3, h4⟩ := h
  by_cases hp : s.isPlayingRef = true
  · simpa [tryPlayNext, hp] using ⟨h1, h2, h3, h4⟩
  · cases hq : s.queue with
    | nil => simpa only [tryPlayNext, hp, Bool.false_eq_true, if_false, hq]
        using ⟨h1, h2, h3, h4⟩
    | cons nx rest =>
      rw [hq] at h2 h3
      have hnx : nx.iid < s.nextIid := h2 nx (List.mem_cons_self _ _)
      have hrest : ∀ it ∈ rest, it.iid < s.nextIid :=
        fun it hit => h2 it (List.mem_cons_of_mem _ hit)
      have h3' : nx.iid ∉ List.map Item.iid rest ∧ (List.map Item.iid rest).Nodup := by
        rw [List.map_cons, List.nodup_cons] at h3; exact h3
      simp only [tryPlayNext, hp, Bool.false_eq_true, if_false, hq]
      refine ⟨rfl, hrest, h3'.2, ?_⟩
      intro cur hc
      have hcur : nx = cur := Option.some.inj hc
      subst hcur
      refine ⟨hnx, ?_⟩
      intro it hit heq
      exact h3'.1 (by rw [← heq]; exact List.mem_map_of_mem _ hit)

theorem invAll_stopAllAudio (s : AState) : InvAll (stopAllAudio s) := by
  refine ⟨rfl, ?_, ?_, ?_⟩
  · intro it hit; simp [stopAllAudio] at hit
  · simp [stopAllAudio]
  · intro cur hc; simp [stopAllAudio] at hc

theorem invAll_enqueueAndPlay {s : AState} (h : InvAll s) (u : String) (r : Bool)
    (m : Option String) : InvAll (enqueueAndPlay u r m s) := by
  obtain ⟨h1, h2, h3, h4⟩ := h
  refine invAll_tryPlayNext ⟨h1, ?_, ?_, ?_⟩
  · intro it hit
    rcases List.mem_append.mp hit with hold | hnew
    · exact Nat.lt_succ_of_lt (h2 it hold)
    · rcases List.mem_singleton.mp hnew with rfl
      exact Nat.lt_succ_self _
  · rw [List.map_append, List.nodup_append]
    refine ⟨h3, List.nodup_singleton _, ?_⟩
    intro a ha hb
    rcases List.mem_map.mp ha with ⟨it, hit, rfl⟩
    have hlt := h2 it hit
    rw [List.mem_singleton.mp hb] at hlt
    exact Nat.lt_irrefl _ hlt
  · intro cur hc
    refine ⟨Nat.lt_succ_of_lt (h4 cur hc).1, ?_⟩
    intro it hit
    rcases List.mem_append.mp hit with hold | hnew
    · exact (h4 cur hc).2 it hold
    · rcases List.mem_singleton.mp hnew with rfl
      intro heq
      have hlt := (h4 cur hc).1
      rw [← heq] at hlt
      exact Nat.lt_irrefl _ hlt

theorem invAll_fireCallback {s : AState} (h : InvAll s) (g : Nat) :
    InvAll (fireCallback g s) := by
  obtain ⟨h1, h2, h3, h4⟩ := h
  unfold fireCallback
  cases hf : findGen s.elems g with
  | none => exact ⟨h1, h2, h3, h4⟩
  | some e =>
    by_cases he : e.fired = true
    · simpa [he] using ⟨h1, h2, h3, h4⟩
    · simp only [he, Bool.false_eq_true, if_false]
      refine invAll_tryPlayNext ?_
      by_cases hr : e.item.revokeAfter = true
      · simp only [hr, if_true]
        exact ⟨rfl, h2, h3, fun cur hc => by simp at hc⟩
      · simp only [hr, Bool.false_eq_true, if_false]
        exact ⟨rfl, h2, h3, fun cur hc => by simp at hc⟩

theorem invAll_step {s : AState} (h : InvAll s) (e : AEvent) : InvAll (step s e) := by
  cases e with
  | enq u r m => exact invAll_enqueueAndPlay h u r m
  | stop => exact invAll_stopAllAudio s
  | playUrl u m => exact invAll_enqueueAndPlay (invAll_stopAllAudio s) u false m
  | cb g => exact invAll_fireCallback h g

theorem invAll_runFrom {s : AState} (h : InvAll s) (tr : List AEvent) :
    InvAll (runFrom s tr) := by
  induction tr generalizing s with
  | nil => exact h
  | cons e tl ih => exact ih (invAll_step h e)

theorem invAll_run (tr : List AEvent) : InvAll (run tr) :=
  invAll_runFrom invAll_init tr

end Audio
end CC

namespace CC
namespace Audio

theorem invGood_init : InvGood init := by
  refine ⟨?_, ?_, ?_⟩
  · intro e he; simp [init] at he
  · simp [init]
  · intro e he; simp [init] at he

theorem pauseGen_map_gen (es : List Elem) (g : Nat) :
    (pauseGen es g).map Elem.gen = es.map Elem.gen := by
  unfold pauseGen
  rw [List.map_map]
  apply List.map_congr_left
  intro e _
  simp only [Function.comp_apply]
  split <;> rfl

theorem fireGen_map_gen (es : List Elem) (g : Nat) :
    (fireGen es g).map Elem.gen = es.map Elem.gen := by
  unfold fireGen
  rw [List.map_map]
  apply List.map_congr_left
  intro e _
  simp only [Function.comp_apply]
  split <;> rfl

theorem pauseGen_gen_lt {es : List Elem} {g n : Nat} (h : ∀ e ∈ es, e.gen < n) :
    ∀ e ∈ pauseGen es g, e.gen < n := by
  intro e he
  rcases List.mem_map.mp he with ⟨e0, he0, rfl⟩
  have hlt := h e0 he0
  by_cases hg : (e0.gen == g) = true
  · simpa [hg] using hlt
  · simpa [hg] using hlt

theorem fireGen_gen_lt {es : List Elem} {g n : Nat} (h : ∀ e ∈ es, e.gen < n) :
    ∀ e ∈ fireGen es g, e.gen < n := by
  intro e he
  rcases List.mem_map.mp he with ⟨e0, he0, rfl⟩
  have hlt := h e0 he0
  by_cases hg : (e0.gen == g) = true
  · simpa [hg] using hlt
  · simpa [hg] using hlt

theorem invGood_tryPlayNext {s : AState} (h : InvGood s) : InvGood (tryPlayNext s) := by
  obtain ⟨h1, h2, h3⟩ := h
  by_cases hp : s.isPlayingRef = true
  · simpa [tryPlayNext, hp] using ⟨h1, h2, h3⟩
  · cases hq : s.queue with
    | nil => simpa only [tryPlayNext, hp, Bool.false_eq_true, if_false, hq]
        using ⟨h1, h2, h3⟩
    | cons nx rest =>
      have hnop : ∀ e ∈ s.elems, playing e = false := by
        intro e he
        cases hpl : playing e
        · rfl
        · exact absurd (h3 e he hpl).2 hp
      simp only [tryPlayNext, hp, Bool.false_eq_true, if_false, hq]
      refine ⟨?_, ?_, ?_⟩
      · intro e he
        rcases List.mem_append.mp he with hold | hnew
        · exact Nat.lt_succ_of_lt (h1 e hold)
        · rcases List.mem_singleton.mp hnew with rfl
          exact Nat.lt_succ_self _
      · rw [List.map_append, List.nodup_append]
        refine ⟨h2, List.nodup_singleton _, ?_⟩
        intro a hma hmb
        rcases List.mem_map.mp hma with ⟨e0, he0, rfl⟩
        have hlt := h1 e0 he0
        rw [List.mem_singleton.mp hmb] at hlt
        exact Nat.lt_irrefl _ hlt
      · intro e he hpl
        rcases List.mem_append.mp he with hold | hnew
        · rw [hnop e hold] at hpl
          exact absurd hpl (by decide)
        · rcases List.mem_singleton.mp hnew with rfl
          exact ⟨rfl, rfl⟩

theorem invGood_stopAllAudio {s : AState} (h : InvGood s) : InvGood (stopAllAudio s) := by
  obtain ⟨h1, h2, h3⟩ := h
  cases ha : s.audioRef with
  | none =>
    have hnp : ∀ e ∈ s.elems, playing e = false := by
      intro e he
      cases hpl : playing e
      · rfl
      · have := (h3 e he hpl).1
        rw [ha] at this
        exact absurd this (by simp)
    refine ⟨?_, ?_, ?_⟩ <;> simp only [stopAllAudio, ha]
    · exact h1
    · exact h2
    · intro e he hpl
      rw [hnp e he] at hpl
      exact absurd hpl (by decide)
  | some g =>
    have hnp : ∀ e ∈ pauseGen s.elems g, playing e = false := by
      intro e he
      rcases List.mem_map.mp he with ⟨e0, he0, rfl⟩
      by_cases hg : (e0.gen == g) = true
      · simp [playing, hg]
      · rw [if_neg hg]
        cases hpl : playing e0
        · rfl
        · have hsome := (h3 e0 he0 hpl).1
          rw [ha] at hsome
          have hge : g = e0.gen := Option.some.inj hsome
          have hgg : (e0.gen == g) = true := by rw [beq_iff_eq]; exact hge.symm
          exact absurd hgg hg
    cases hf : findGen s.elems g with
    | none =>
      refine ⟨?_, ?_, ?_⟩ <;> simp only [stopAllAudio, ha, hf]
      · exact pauseGen_gen_lt h1
      · rw [pauseGen_map_gen]; exact h2
      · intro e he hpl
        rw [hnp e he] at hpl
        exact absurd hpl (by decide)
    | some e =>
      cases hc : s.currentItem with
      | none =>
        refine ⟨?_, ?_, ?_⟩ <;> simp only [stopAllAudio, ha, hf, hc]
        · exact pauseGen_gen_lt h1
        · rw [pauseGen_map_gen]; exact h2
        · intro e2 he2 hpl
          rw [hnp e2 he2] at hpl
          exact absurd hpl (by decide)
      | some cur =>
        by_cases hrv : (cur.revokeAfter && strStarts e.item.url "blob:") = true
        · refine ⟨?_, ?_, ?_⟩ <;> simp only [stopAllAudio, ha, hf, hc, hrv, if_true]
          · exact pauseGen_gen_lt h1
          · rw [pauseGen_map_gen]; exact h2
          · intro e2 he2 hpl
            rw [hnp e2 he2] at hpl
            exact absurd hpl (by decide)
        · refine ⟨?_, ?_, ?_⟩ <;>
            simp only [stopAllAudio, ha, hf, hc, hrv, Bool.false_eq_true, if_false]
          · exact pauseGen_gen_lt h1
          · rw [pauseGen_map_gen]; exact h2
          · intro e2 he2 hpl
            rw [hnp e2 he2] at hpl
            exact absurd hpl (by decide)

theorem invGood_enqueueAndPlay {s : AState} (h : InvGood s) (u : String) (r : Bool)
    (m : Option String) : InvGood (enqueueAndPlay u r m s) := by
  obtain ⟨h1, h2, h3⟩ := h
  exact invGood_tryPlayNext ⟨h1, h2, h3⟩

theorem invGood_fireCallback {s : AState} (h : InvGood s) (g : Nat)
    (hok : ((s.audioRef == some g) && s.isPlayingRef) = true) :
    InvGood (fireCallback g s) := by
  obtain ⟨h1, h2, h3⟩ := h
  obtain ⟨href, _⟩ := Bool.and_eq_true_iff.mp hok
  have haud : s.audioRef = some g := by rwa [beq_iff_eq] at href
  have hmid : ∀ rel : List String, InvGood
      { audioRef := s.audioRef, isPlayingRef := false, currentItem := none
      , queue := s.queue, playingMsgId := none, elems := fireGen s.elems g
      , released := rel, nextGen := s.nextGen, nextIid := s.nextIid } := by
    intro rel
    refine ⟨fireGen_gen_lt h1, ?_, ?_⟩
    · show (List.map Elem.gen (fireGen s.elems g)).Nodup
      rw [fireGen_map_gen]; exact h2
    · intro e2 he2 hpl
      rcases List.mem_map.mp he2 with ⟨e0, he0, rfl⟩
      by_cases hg : (e0.gen == g) = true
      · rw [if_pos hg] at hpl
        simp [playing] at hpl
      · rw [if_neg hg] at hpl
        have hsome := (h3 e0 he0 hpl).1
        rw [haud] at hsome
        have hge : g = e0.gen := Option.some.inj hsome
        have hgg : (e0.gen == g) = true := by rw [beq_iff_eq]; exact hge.symm
        exact absurd hgg hg
  unfold fireCallback
  cases hf : findGen s.elems g with
  | none => exact ⟨h1, h2, h3⟩
  | some e =>
    by_cases he : e.fired = true
    · simpa [he] using ⟨h1, h2, h3⟩
    · simp only [he, Bool.false_eq_true, if_false]
      by_cases hrv : e.item.revokeAfter = true
      · simp only [hrv, if_true]
        exact invGood_tryPlayNext (hmid _)
      · simp only [hrv, Bool.false_eq_true, if_false]
        exact invGood_tryPlayNext (hmid _)

theorem invGood_goodFrom {s : AState} (hg : InvGood s) {tr : List AEvent}
    (h : goodFrom s tr = true) : InvGood (runFrom s tr) := by
  induction tr generalizing s with
  | nil => exact hg
  | cons e tl ih =>
    rw [goodFrom] at h
    obtain ⟨hok, htl⟩ := Bool.and_eq_true_iff.mp h
    refine ih ?_ htl
    cases e with
    | enq u r m => exact invGood_enqueueAndPlay hg u r m
    | stop => exact invGood_stopAllAudio hg
    | playUrl u m => exact invGood_enqueueAndPlay (invGood_stopAllAudio hg) u false m
    | cb g => exact invGood_fireCallback hg g hok

theorem playing_le_one {s : AState} (h : InvGood s) :
    (playingElems s).length ≤ 1 := by
  obtain ⟨_, hn, h3⟩ := h
  have hsub : List.Sublist (playingElems s) s.elems := List.filter_sublist _
  have hnd : ((playingElems s).map Elem.gen).Nodup := hn.sublist (hsub.map _)
  cases hl : playingElems s with
  | nil => simp
  | cons e1 tl =>
    cases tl with
    | nil => simp
    | cons e2 tl2 =>
      exfalso
      have he1 : e1 ∈ playingElems s := by rw [hl]; exact List.mem_cons_self _ _
      have he2 : e2 ∈ playingElems s := by rw [hl]; simp
      have p1 := List.mem_filter.mp he1
      have p2 := List.mem_filter.mp he2
      have g1 := h3 e1 p1.1 p1.2
      have g2 := h3 e2 p2.1 p2.2
      have hgen : e1.gen = e2.gen := Option.some.inj (g1.1.symm.trans g2.1)
      rw [hl] at hnd
      rw [List.map_cons, List.map_cons, List.nodup_cons] at hnd
      exact hnd.1 (by rw [hgen]; exact List.mem_cons_self _ _)

end Audio
end CC

namespace CC

/-- C2 (amended): along every trace, `isPlaying` is true iff a current
item is set and the pending queue never contains the currently-playing
item; and in every trace without late end/error callbacks at most one
audio element is audibly playing at any instant. -/
theorem c2_playback_state_invariant (tr : List Audio.AEvent) :
    ((Audio.run tr).isPlayingRef = (Audio.run tr).currentItem.isSome
     ∧ ∀ cur, (Audio.run tr).currentItem = some cur →
         ∀ it ∈ (Audio.run tr).queue, it.iid ≠ cur.iid)
    ∧ (Audio.goodTrace tr = true →
        (Audio.playingElems (Audio.run tr)).length ≤ 1) := by
  obtain ⟨h1, _, _, h4⟩ := Audio.invAll_run tr
  refine ⟨⟨h1, fun cur hc => (h4 cur hc).2⟩, ?_⟩
  intro hg
  exact Audio.playing_le_one (Audio.invGood_goodFrom Audio.invGood_init hg)

/-- C2 witness: the invariant evaluated on a concrete well-behaved trace
(play a transient item, let it end naturally, then play another). -/
theorem c2_playback_state_invariant_witness :
    ((Audio.run [Audio.AEvent.enq "blob:w" true none, Audio.AEvent.cb 0,
        Audio.AEvent.enq "u" false (some "m")]).isPlayingRef
      = (Audio.run [Audio.AEvent.enq "blob:w" true none, Audio.AEvent.cb 0,
        Audio.AEvent.enq "u" false (some "m")]).currentItem.isSome
     ∧ ∀ cur, (Audio.run [Audio.AEvent.enq "blob:w" true none, Audio.AEvent.cb 0,
        Audio.AEvent.enq "u" false (some "m")]).currentItem = some cur →
         ∀ it ∈ (Audio.run [Audio.AEvent.enq "blob:w" true none, Audio.AEvent.cb 0,
            Audio.AEvent.enq "u" false (some "m")]).queue, it.iid ≠ cur.iid)
    ∧ (Audio.playingElems (Audio.run [Audio.AEvent.enq "blob:w" true none,
        Audio.AEvent.cb 0, Audio.AEvent.enq "u" false (some "m")])).length ≤ 1 :=
  ⟨(c2_playback_state_invariant [Audio.AEvent.enq "blob:w" true none,
      Audio.AEvent.cb 0, Audio.AEvent.enq "u" false (some "m")]).1,
   (c2_playback_state_invariant [Audio.AEvent.enq "blob:w" true none,
      Audio.AEvent.cb 0, Audio.AEvent.enq "u" false (some "m")]).2 (by decide)⟩

end CC

namespace CC

theorem applyLine_eq (acc : String) (line : List Char) :
    Stream.applyLine acc line = acc ++ (Stream.lineDelta line).getD "" := by
  unfold Stream.applyLine
  cases hd : Stream.lineDelta line with
  | none => simp [strAppend_empty]
  | some t =>
    by_cases ht : t = ""
    · simp [ht, strAppend_empty]
    · simp [ht]

theorem processLines_eq (lines : List (List Char)) (acc : String) :
    Stream.processLines acc lines
      = acc ++ Stream.concatAll (Stream.deltaTexts lines) := by
  induction lines generalizing acc with
  | nil =>
    simp [Stream.processLines, Stream.deltaTexts, Stream.concatAll, strAppend_empty]
  | cons l ls ih =>
    show Stream.processLines (Stream.applyLine acc l) ls = _
    rw [ih, applyLine_eq, strAppend_assoc]
    congr 1
    unfold Stream.deltaTexts
    cases hd : Stream.lineDelta l with
    | none => simp [List.filterMap_cons, hd, strEmpty_append]
    | some t => simp [List.filterMap_cons, hd, Stream.concatAll]

theorem concatAll_append (xs ys : List String) :
    Stream.concatAll (xs ++ ys) = Stream.concatAll xs ++ Stream.concatAll ys := by
  induction xs with
  | nil => simp [Stream.concatAll, strEmpty_append]
  | cons x xs ih =>
    show x ++ Stream.concatAll (xs ++ ys)
        = x ++ Stream.concatAll xs ++ Stream.concatAll ys
    rw [ih, strAppend_assoc]

theorem runChunks_eq (chunks : List String) (acc : String) :
    Stream.runChunks acc chunks
      = acc ++ Stream.concatAll (Stream.deltaTexts (Stream.allLines chunks)) := by
  induction chunks generalizing acc with
  | nil =>
    simp [Stream.runChunks, Stream.allLines, Stream.deltaTexts, Stream.concatAll,
      strAppend_empty]
  | cons c cs ih =>
    show Stream.runChunks (Stream.processChunk acc c) cs = _
    rw [ih,
      show Stream.processChunk acc c
          = acc ++ Stream.concatAll (Stream.deltaTexts (Stream.splitNl c.data)) from
        processLines_eq _ _,
      Stream.allLines]
    unfold Stream.deltaTexts
    rw [List.filterMap_append, concatAll_append, strAppend_assoc]

/-- C4 (amended): for every streamed response, the accumulated assistant
text equals the concatenation, in arrival order, of the text fields of
all valid delta lines (including any that arrive after an `end` event);
lines that are not well-formed `data: `-prefixed JSON events contribute
nothing and never terminate the loop; and the session completes exactly
once, when the underlying stream is exhausted — the `end` event itself
has no effect. -/
theorem c4_stream_text (chunks : List String) :
    (Stream.streamRead chunks none).text
      = Stream.concatAll (Stream.deltaTexts (Stream.allLines chunks))
    ∧ (Stream.streamRead chunks none).completed = true := by
  refine ⟨?_, rfl⟩
  show Stream.runChunks "" chunks = _
  rw [runChunks_eq]
  exact strEmpty_append _

/-- C5: after `abort()` no further delta is applied even if more bytes
arrive on the connection (the outcome of the aborted run ignores every
chunk from the abort point on), the text accumulated at the moment of
abort is retained as-is, and the completion path never runs for an
aborted session. -/
theorem c5_abort_stops_deltas (chunks extra : List String) (k : Nat)
    (h : k ≤ chunks.length) :
    Stream.streamRead (chunks ++ extra) (some k) = Stream.streamRead chunks (some k)
    ∧ (Stream.streamRead chunks (some k)).text = Stream.runChunks "" (chunks.take k)
    ∧ (Stream.streamRead chunks (some k)).completed = false := by
  refine ⟨?_, rfl, rfl⟩
  show Stream.Outcome.mk (Stream.runChunks "" ((chunks ++ extra).take k)) false
      = Stream.Outcome.mk (Stream.runChunks "" (chunks.take k)) false
  rw [List.take_append_of_le_length h]

/-- C5 witness: one delta chunk received, abort, then another delta chunk
arrives late — the outcome equals the one-chunk outcome. -/
theorem c5_abort_stops_deltas_witness :
    1 ≤ (["data: \x7b\"type\": \"delta\", \"text\": \"Hel\"\x7d\n"] : List String).length
    ∧ (Stream.streamRead
          (["data: \x7b\"type\": \"delta\", \"text\": \"Hel\"\x7d\n"]
            ++ ["data: \x7b\"type\": \"delta\", \"text\": \"lo\"\x7d\n"]) (some 1)
        = Stream.streamRead
            ["data: \x7b\"type\": \"delta\", \"text\": \"Hel\"\x7d\n"] (some 1)
       ∧ (Stream.streamRead
            ["data: \x7b\"type\": \"delta\", \"text\": \"Hel\"\x7d\n"] (some 1)).text
          = Stream.runChunks ""
              (["data: \x7b\"type\": \"delta\", \"text\": \"Hel\"\x7d\n"].take 1)
       ∧ (Stream.streamRead
            ["data: \x7b\"type\": \"delta\", \"text\": \"Hel\"\x7d\n"]
            (some 1)).completed = false) :=
  ⟨by decide,
   c5_abort_stops_deltas
     ["data: \x7b\"type\": \"delta\", \"text\": \"Hel\"\x7d\n"]
     ["data: \x7b\"type\": \"delta\", \"text\": \"lo\"\x7d\n"] 1 (by decide)⟩

end CC

namespace CC

theorem findSession_append_last (ss : List Recorder.RSession)
    (e : Recorder.RSession) (h : ∀ x ∈ ss, (x.sid == e.sid) = false) :
    Recorder.findSession (ss ++ [e]) e.sid = some e := by
  induction ss with
  | nil =>
    show List.find? _ [e] = some e
    exact List.find?_cons_of_pos _ (by simp)
  | cons x xs ih =>
    show List.find? _ (x :: (xs ++ [e])) = some e
    rw [List.find?_cons_of_neg _ (by simp [h x (List.mem_cons_self _ _)])]
    exact ih (fun y hy => h y (List.mem_cons_of_mem _ hy))

theorem markStopRequested_append (ss : List Recorder.RSession) (n : Nat)
    (e : Recorder.RSession) (h : ∀ x ∈ ss, (x.sid == n) = false)
    (he : (e.sid == n) = true) :
    Recorder.markStopRequested (ss ++ [e]) n
      = ss ++ [{ e with stopRequested := true }] := by
  unfold Recorder.markStopRequested
  rw [List.map_append]
  congr 1
  · conv_rhs => rw [← List.map_id ss]
    refine List.map_congr_left ?_
    intro x hx
    rw [h x hx]
    simp
  · rw [List.map_cons, List.map_nil, if_pos he]

theorem markStopFired_append (ss : List Recorder.RSession) (n : Nat)
    (e : Recorder.RSession) (h : ∀ x ∈ ss, (x.sid == n) = false)
    (he : (e.sid == n) = true) :
    Recorder.markStopFired (ss ++ [e]) n
      = ss ++ [{ e with stopFired := true, tracksReleased := true }] := by
  unfold Recorder.markStopFired
  rw [List.map_append]
  congr 1
  · conv_rhs => rw [← List.map_id ss]
    refine List.map_congr_left ?_
    intro x hx
    rw [h x hx]
    simp
  · rw [List.map_cons, List.map_nil, if_pos he]

theorem dataFold (datas : List String) (st : Recorder.RState) (n : Nat)
    (e : Recorder.RSession)
    (hf : Recorder.findSession st.sessions n = some e)
    (hef : e.stopFired = false) :
    datas.foldl (fun s2 d => Recorder.stepR s2 (.dataAvail n d)) st
      = { st with chunksRef := st.chunksRef ++ datas.filter (fun d => !(d == "")) } := by
  induction datas generalizing st with
  | nil => simp
  | cons d ds ih =>
    have hstep : Recorder.stepR st (.dataAvail n d)
        = if d = "" then st else { st with chunksRef := st.chunksRef ++ [d] } := by
      simp only [Recorder.stepR, hf, hef, Bool.false_eq_true, if_false]
    show ds.foldl _ (Recorder.stepR st (.dataAvail n d)) = _
    by_cases hd : d = ""
    · rw [hstep, if_pos hd, ih st hf]
      have : (d :: ds).filter (fun d => !(d == "")) = ds.filter (fun d => !(d == "")) := by
        simp [List.filter_cons, hd]
      rw [this]
    · rw [hstep, if_neg hd, ih { st with chunksRef := st.chunksRef ++ [d] } hf]
      have : (d :: ds).filter (fun d => !(d == "")) = d :: ds.filter (fun d => !(d == "")) := by
        simp [List.filter_cons, hd]
      rw [this]
      simp [List.append_assoc]

end CC

namespace CC


theorem stepR_cancel (st : Recorder.RState) :
    Recorder.stepR st .cancelRec = Recorder.finishRec st .cancel := rfl

theorem stepR_confirm (st : Recorder.RState) :
    Recorder.stepR st .confirmRec = Recorder.finishRec st .send := rfl

theorem finishRec_eq (st : Recorder.RState) (n : Nat) (a : Recorder.RAction)
    (e : Recorder.RSession) (hmr : st.mrRef = some n)
    (hf : Recorder.findSession st.sessions n = some e)
    (he : e.stopRequested = false) :
    Recorder.finishRec st a
      = { st with actionRef := a,
                  recording := false,
                  sessions := Recorder.markStopRequested st.sessions n } := by
  unfold Recorder.finishRec
  dsimp only
  rw [hmr]
  dsimp only
  rw [hf]
  dsimp only
  rw [he]
  simp only [Bool.false_eq_true, if_false]

theorem stopCb_eq (st : Recorder.RState) (n : Nat) (e : Recorder.RSession)
    (hf : Recorder.findSession st.sessions n = some e)
    (hreq : e.stopRequested = true) (hfired : e.stopFired = false) :
    Recorder.stepR st (.stopCb n)
      = (match st.actionRef with
         | Recorder.RAction.send =>
           { st with chunksRef := [],
                     sessions := Recorder.markStopFired st.sessions n,
                     deliveries := st.deliveries ++ [st.chunksRef] }
         | Recorder.RAction.cancel =>
           { st with chunksRef := [],
                     sessions := Recorder.markStopFired st.sessions n }) := by
  simp only [Recorder.stepR]
  rw [hf]
  dsimp only
  rw [hreq, hfired]
  simp only [Bool.not_false, Bool.and_true, if_true]

end CC

namespace CC

theorem runScript_eq (s : Recorder.RState) (sc : Recorder.SessScript)
    (hrec : s.recording = false)
    (hsid : ∀ x ∈ s.sessions, (x.sid == s.nextSid) = false) :
    Recorder.runScript s sc =
      { recording := false
      , actionRef := if sc.keep then Recorder.RAction.send else Recorder.RAction.cancel
      , chunksRef := []
      , mrRef := some s.nextSid
      , sessions := s.sessions ++ [⟨s.nextSid, true, true, true⟩]
      , deliveries := s.deliveries ++
          (if sc.keep then [sc.datas.filter (fun d => !(d == ""))] else [])
      , nextSid := s.nextSid + 1 } := by
  have hstart : Recorder.stepR s .startRec =
      { recording := true, actionRef := .send, chunksRef := []
      , mrRef := some s.nextSid
      , sessions := s.sessions ++ [⟨s.nextSid, false, false, false⟩]
      , deliveries := s.deliveries, nextSid := s.nextSid + 1 } := by
    simp only [Recorder.stepR, hrec, Bool.false_eq_true, if_false]
  have hfind0 : Recorder.findSession
      (s.sessions ++ [⟨s.nextSid, false, false, false⟩]) s.nextSid
      = some ⟨s.nextSid, false, false, false⟩ :=
    findSession_append_last s.sessions ⟨s.nextSid, false, false, false⟩ hsid
  have hfind1 : Recorder.findSession
      (s.sessions ++ [⟨s.nextSid, true, false, false⟩]) s.nextSid
      = some ⟨s.nextSid, true, false, false⟩ :=
    findSession_append_last s.sessions ⟨s.nextSid, true, false, false⟩ hsid
  cases hk : sc.keep
  case false =>
    simp only [Recorder.runScript, hk, Bool.false_eq_true, if_false]
    rw [hstart]
    rw [dataFold sc.datas _ s.nextSid ⟨s.nextSid, false, false, false⟩ hfind0 rfl]
    dsimp only [List.nil_append]
    rw [stepR_cancel]
    rw [finishRec_eq _ s.nextSid _ ⟨s.nextSid, false, false, false⟩ rfl hfind0 rfl]
    dsimp only
    rw [markStopRequested_append s.sessions s.nextSid ⟨s.nextSid, false, false, false⟩
      hsid (by simp)]
    rw [stopCb_eq _ s.nextSid ⟨s.nextSid, true, false, false⟩ hfind1 rfl rfl]
    dsimp only
    rw [markStopFired_append s.sessions s.nextSid ⟨s.nextSid, true, false, false⟩
      hsid (by simp)]
    rw [List.append_nil]
  case true =>
    simp only [Recorder.runScript, hk, if_true]
    rw [hstart]
    rw [dataFold sc.datas _ s.nextSid ⟨s.nextSid, false, false, false⟩ hfind0 rfl]
    dsimp only [List.nil_append]
    rw [stepR_confirm]
    rw [finishRec_eq _ s.nextSid _ ⟨s.nextSid, false, false, false⟩ rfl hfind0 rfl]
    dsimp only
    rw [markStopRequested_append s.sessions s.nextSid ⟨s.nextSid, false, false, false⟩
      hsid (by simp)]
    rw [stopCb_eq _ s.nextSid ⟨s.nextSid, true, false, false⟩ hfind1 rfl rfl]
    dsimp only
    rw [markStopFired_append s.sessions s.nextSid ⟨s.nextSid, true, false, false⟩
      hsid (by simp)]

end CC

namespace CC

theorem runScripts_eq (scripts : List Recorder.SessScript) (s : Recorder.RState)
    (h : Recorder.RInv s) :
    Recorder.RInv (Recorder.runScripts s scripts)
    ∧ (Recorder.runScripts s scripts).deliveries
      = s.deliveries ++ (scripts.filter Recorder.SessScript.keep).map
          (fun sc => sc.datas.filter (fun d => !(d == ""))) := by
  induction scripts generalizing s with
  | nil => exact ⟨h, by simp [Recorder.runScripts]⟩
  | cons sc rest ih =>
    obtain ⟨hrec, hsess⟩ := h
    have hsid : ∀ x ∈ s.sessions, (x.sid == s.nextSid) = false := by
      intro x hx
      rw [beq_eq_false_iff_ne]
      exact Nat.ne_of_lt (hsess x hx).1
    have hr := runScript_eq s sc hrec hsid
    have hinv : Recorder.RInv (Recorder.runScript s sc) := by
      rw [hr]
      refine ⟨rfl, ?_⟩
      intro e he
      rcases List.mem_append.mp he with hold | hnew
      · obtain ⟨hlt, h2, h3, h4⟩ := hsess e hold
        exact ⟨Nat.lt_succ_of_lt hlt, h2, h3, h4⟩
      · rcases List.mem_singleton.mp hnew with rfl
        exact ⟨Nat.lt_succ_self _, rfl, rfl, rfl⟩
    have hrest := ih (Recorder.runScript s sc) hinv
    refine ⟨hrest.1, ?_⟩
    show (Recorder.runScripts (Recorder.runScript s sc) rest).deliveries = _
    rw [hrest.2, hr]
    cases hk : sc.keep
    · simp [List.filter_cons, hk]
    · simp [List.filter_cons, hk, List.append_assoc]

/-- C6 (amended): in every execution where each recording session's stop
callback fires before the next session starts, a cancelled session never
invokes the voice delivery path, a confirmed session invokes it exactly
once with all captured (non-empty) chunks in capture order, and every
session's capture tracks are released by the time its stop callback has
run.  (With overlapping sessions the shared `recordActionRef`/`chunksRef`
break the cancel guarantee — see the counterexample.) -/
theorem c6_serialized_sessions (scripts : List Recorder.SessScript) :
    (Recorder.runScripts Recorder.init scripts).deliveries
      = (scripts.filter Recorder.SessScript.keep).map
          (fun sc => sc.datas.filter (fun d => !(d == "")))
    ∧ ∀ e ∈ (Recorder.runScripts Recorder.init scripts).sessions,
        e.stopFired = true ∧ e.tracksReleased = true := by
  have h := runScripts_eq scripts Recorder.init
    ⟨rfl, by intro e he; simp [Recorder.init] at he⟩
  refine ⟨?_, ?_⟩
  · exact h.2
  · intro e he
    obtain ⟨_, _, h3, h4⟩ := h.1.2 e he
    exact ⟨h3, h4⟩

end CC

namespace CC

theorem jsTrim_blank {s : String} (h : s.data.all Ui.jsWhitespaceChar = true) :
    Ui.jsTrim s = "" := by
  unfold Ui.jsTrim
  have hd : s.data.dropWhile Ui.jsWhitespaceChar = [] :=
    List.dropWhile_eq_nil_iff.mpr (fun x hx => List.all_eq_true.mp h x hx)
  rw [hd]
  rfl

/-- C10: sending while the input is empty or all-whitespace is a no-op
at the public interface — the `if (!query) return` guard runs before any
other statement of `onSendText`, so the message list, the input, the
loading flag, the audio refs and the stream ref are all unchanged and no
request is issued. -/
theorem c10_blank_send_noop (s : Ui.UiState)
    (h : s.input.data.all Ui.jsWhitespaceChar = true) :
    Ui.onSendTextModel s = s := by
  unfold Ui.onSendTextModel
  rw [jsTrim_blank h]
  simp

/-- C10 witness: a concrete whitespace-only input on a non-trivial state. -/
theorem c10_blank_send_noop_witness :
    ((Ui.UiState.mk " \t" [Ui.UMessage.mk 0 true "hi"] false Audio.init
        Coord.init 1).input.data.all Ui.jsWhitespaceChar = true)
    ∧ Ui.onSendTextModel (Ui.UiState.mk " \t" [Ui.UMessage.mk 0 true "hi"] false
        Audio.init Coord.init 1)
      = Ui.UiState.mk " \t" [Ui.UMessage.mk 0 true "hi"] false Audio.init
          Coord.init 1 :=
  ⟨by decide, c10_blank_send_noop _ (by decide)⟩

end CC
